import Mathlib

/-!
Shallow embedding of the high-z digital spectrometer control code
(`src/rcal.py`, `src/fpga_helper.py`, `src/run_spectrometer.py`) and proofs
about it.  Hardware and operating-system effects (GPIO lines, register reads,
the filesystem, timestamps) are passed explicitly as state or as input
streams; machine integers are modelled as `Nat`/`Int` (Python integers are
unbounded, and the bitwise `&` of Python on negative operands coincides with
`Int.land`).
-/

namespace HighZ

/-! ## rcal.py : GPIO calibration switch -/

/-- The three GPIO output lines driven by `rcal.gpio_switch`
(`gpio_pin0` = line A, `gpio_pin1` = line B, `gpio_pin2` = line C). -/
structure GpioPins where
  pin0 : Bool
  pin1 : Bool
  pin2 : Bool
deriving DecidableEq, Repr

/-- Observable outcome of one `gpio_switch(n, t)` call: the line levels after
the call, the sleep performed (none on the early-return path), and the value
returned (the error string, or none for Python's implicit `None`). -/
structure GpioOutcome where
  pins : GpioPins
  slept : Option Int
  ret : Option String
deriving DecidableEq, Repr

/-- `rcal.gpio_switch(n, t)` from `src/rcal.py`.  `pins` is the state of the
three output lines before the call; Python's `idx & k` on a possibly negative
`idx` is two's-complement bitwise and, i.e. `Int.land`. -/
def gpio_switch (n : Int) (t : Int) (pins : GpioPins) : GpioOutcome :=
  if (n < 0 ∨ 7 < n) ∧ n ≠ 10 then
    { pins := pins, slept := none,
      ret := some "Invalid calibration index. Please choose a number between 0 and 7, or 10." }
  else
    let idx : Int := 7 - n
    { pins := { pin0 := decide (Int.land idx 1 ≠ 0)
                pin1 := decide (Int.land idx 2 ≠ 0)
                pin2 := decide (Int.land idx 4 ≠ 0) },
      slept := some t, ret := none }

/-- The line pattern `gpio_switch` drives for an in-range state `s ∈ {0..7}`
(the pattern is independent of the sleep argument and of the prior levels). -/
def gpio_lines (s : Fin 8) : GpioPins :=
  (gpio_switch (s : Int) 0 ⟨false, false, false⟩).pins

/-! ## fpga_helper.py `get_acc_cnt` / run_spectrometer.py `print_acc_cnt`

The hardware counter is modelled by the trace of values successive
`fpga.read_uint('acc_cnt')` calls would return. -/

/-- The `while acc_n == last_acc_n` polling loop of `get_acc_cnt`:
`acc_n` is the most recent read, `last_acc_n` the baseline, `c` the number of
reads performed so far.  Returns `none` when the supplied read trace runs out
before the loop exits (the real loop has no timeout and would keep polling). -/
def acc_cnt_loop (last_acc_n : Nat) : Nat → Nat → List Nat → Option (Nat × Nat)
  | acc_n, c, [] => if acc_n = last_acc_n then none else some (acc_n, c)
  | acc_n, c, r :: rest =>
    if acc_n = last_acc_n then acc_cnt_loop last_acc_n r (c + 1) rest
    else some (acc_n, c)

/-- `get_acc_cnt(fpga, last_acc_n)` from `src/fpga_helper.py` (the live code
of `print_acc_cnt` in `src/run_spectrometer.py` is identical: its second
loop is `while False` and its dead `c = 0` reset is commented out): read the
counter once, raise the baseline if that read already exceeds it, set
`c = 1`, then poll while the read equals the baseline, counting reads. -/
def get_acc_cnt (reads : List Nat) (last_acc_n : Nat) : Option (Nat × Nat) :=
  match reads with
  | [] => none
  | r0 :: rest =>
    let last := if r0 > last_acc_n then r0 else last_acc_n
    acc_cnt_loop last r0 1 rest

/-! ## fpga_helper.py / run_spectrometer.py `get_vacc_data` -/

/-- One big-endian unsigned 64-bit word of `struct.unpack('>..Q', ...)`:
fold the 8 bytes most-significant first. -/
def beWord (bytes : List Nat) : Nat :=
  bytes.foldl (fun acc b => acc * 256 + b) 0

/-- `struct.unpack('>{n}Q', raw)`: decode consecutive 8-byte groups as
big-endian unsigned 64-bit integers. -/
def unpackBE64 : List Nat → List Nat
  | b0 :: b1 :: b2 :: b3 :: b4 :: b5 :: b6 :: b7 :: rest =>
      beWord [b0, b1, b2, b3, b4, b5, b6, b7] :: unpackBE64 rest
  | _ => []

/-- Big-endian encoding of one value as 8 bytes (test-data builder used to
state the synthetic-dataset property; inverse of `beWord` below `2 ^ 64`). -/
def encodeBE64 (v : Nat) : List Nat :=
  [v / 256 ^ 7 % 256, v / 256 ^ 6 % 256, v / 256 ^ 5 % 256, v / 256 ^ 4 % 256,
   v / 256 ^ 3 % 256, v / 256 ^ 2 % 256, v / 256 % 256, v % 256]

/-- `get_vacc_data(fpga)`: `read ch` is the byte block returned by
`fpga.read('q{ch+1}', chunk*8, 0)` and `acc_cnt` the value of the final
`fpga.read_uint('acc_cnt')`.  Each block is decoded as `chunk` big-endian
u64 samples (`raw`), then the per-channel arrays are flattened round-robin:
for each offset, one sample from every channel in order. -/
def get_vacc_data (nfft nchannels : Nat) (read : Nat → List Nat) (acc_cnt : Nat) :
    List Nat × Nat :=
  let half_nfft := nfft / 2
  let chunk := half_nfft / nchannels
  let raw : Nat → List Nat := fun ch => unpackBE64 (read ch)
  let interleave_q :=
    (List.range chunk).flatMap fun i =>
      (List.range nchannels).map fun j => (raw j).getD i 0
  (interleave_q, acc_cnt)

/-! ## fpga_helper.py / run_spectrometer.py `discover_fpga_address`

The network is a passive oracle: name resolution, TCP connect probes to the
KATCP port 7147, the interface listing parsed from `ip link show`, the
neighbor-table scan, and scoped IPv6 connects.  A Python exception on a
sub-step (timeout, refused, resolution failure) is a `none` / `false`
answer here; the code swallows them all and moves on. -/

structure Net where
  resolve : String → Option String
  connect : String → Bool
  link_ifaces : List String
  neighbors : String → List String
  connect6 : String → String → Bool

/-- `dict.fromkeys` deduplication: keep the first occurrence of each name. -/
def dedupFirst (seen : List String) : List String → List String
  | [] => []
  | a :: l => if a ∈ seen then dedupFirst seen l else a :: dedupFirst (a :: seen) l

/-- The candidate hostname list of `discover_fpga_address`: the hint when
truthy (nonempty), then the fixed fallbacks, duplicates removed keeping
order. -/
def hostnames_to_try (hostname_hint : String) : List String :=
  dedupFirst []
    ((if hostname_hint ≠ "" then [hostname_hint] else []) ++
      ["rfsoc", "localhost.localdomain", "localhost"])

/-- Method 1: resolve each hostname; on success probe the resolved address;
return it if the probe succeeds, otherwise fall through to the next
candidate. -/
def method1 (net : Net) : List String → Option String
  | [] => none
  | h :: rest =>
    match net.resolve h with
    | none => method1 net rest
    | some ip => if net.connect ip then some ip else method1 net rest

/-- The interface filter of method 3: drop `lo` and `docker*`. -/
def iface_filter (raw : List String) : List String :=
  raw.filter fun i => (i != "lo") && !(i.startsWith "docker")

/-- Method 3, inner loop: scoped connect to each neighbor-table `fe80::`
address found on the interface; first success wins. -/
def try_addrs (net : Net) (iface : String) : List String → Option String
  | [] => none
  | a :: rest => if net.connect6 a iface then some a else try_addrs net iface rest

/-- Method 3, outer loop over interfaces (the multicast ping that precedes
the neighbor-table query only triggers discovery; its result is ignored). -/
def method3 (net : Net) : List String → Option String
  | [] => none
  | iface :: rest =>
    match try_addrs net iface (net.neighbors iface) with
    | some ip => some ip
    | none => method3 net rest

/-- `discover_fpga_address(hardcoded_ip, hostname_hint, timeout)`: hostname
candidates, then the hardcoded IPv4 address, then IPv6 link-local discovery;
`none` when every method is exhausted. -/
def discover_fpga_address (net : Net) (hardcoded_ip : String) (hostname_hint : String) :
    Option String :=
  match method1 net (hostnames_to_try hostname_hint) with
  | some ip => some ip
  | none =>
    if net.connect hardcoded_ip then some hardcoded_ip
    else method3 net (iface_filter net.link_ifaces)

/-! ## run_spectrometer.py : session bookkeeping and saving -/

/-- `BASE_PATH` from the configuration block. -/
def BASE_PATH : String := "/media/peterson"

/-- The module-level session globals of `run_spectrometer.py`
(`cycle_count`, `sub_dir_count`, `current_parent_dir`,
`current_sub_dir_path`). -/
structure Session where
  cycle_count : Nat
  sub_dir_count : Nat
  current_parent_dir : Option String
  current_sub_dir_path : Option String
deriving DecidableEq, Repr

/-- The filesystem facts one `save_data` call observes: `driveDirs` is
`next(os.walk(BASE_PATH))[1]` in listing order, `sessionDirListing` is
`os.listdir` of the chosen drive-session directory, `pathExists` is
`os.path.exists`, and `timestamp_hms` is `strftime('%H%M%S')` at this call. -/
structure Env where
  driveDirs : List String
  sessionDirListing : List String
  pathExists : String → Bool
  timestamp_hms : String

/-- `get_sub_directory(parent_dir_path, sub_dir_count)`: name the
subdirectory after the UTC `HHMMSS` timestamp; create it and bump the
counter only when it does not already exist. -/
def get_sub_directory (pathExists : String → Bool) (ts : String)
    (parent_dir_path : String) (sub_dir_count : Nat) : String × Nat :=
  let sub_dir_path := parent_dir_path ++ "/" ++ ts
  if pathExists sub_dir_path then (sub_dir_path, sub_dir_count)
  else (sub_dir_path, sub_dir_count + 1)

/-- Result of one `save_data` call: the session globals afterwards, the path
of the `.npy` file written (none when saving is disabled), the parent
directory path resolved for this run, and whether `os.mkdir` ran for it. -/
structure SaveOutcome where
  session : Session
  wrote : Option String
  parent_dir : Option String
  made_parent : Bool
deriving DecidableEq, Repr

/-- `save_data(dataDict, filename)`: skip everything when `SAVE_DATA` is
false; otherwise pick the last directory of the `BASE_PATH` listing as the
drive session, resolve the parent directory from `run_directory` or from
`filename.split('_')[0]`, create it if absent, open a new timestamp-named
subdirectory when a cycle has completed (`cycle_count >= 1`) or none exists
yet, and write `<filename>.npy` into the current subdirectory.  (The
`wait_for_storage` call at the top only blocks; it changes no state.) -/
def save_data (SAVE_DATA : Bool) (run_directory : Option String) (env : Env)
    (sess : Session) (filename : String) : SaveOutcome :=
  if ¬ SAVE_DATA then
    { session := sess, wrote := none, parent_dir := none, made_parent := false }
  else
    let dirname := env.driveDirs.getLastD ""
    let parent_dir_name :=
      match run_directory with
      | some rd => rd
      | none => (filename.splitOn "_").headD ""
    let parent_dir_path := BASE_PATH ++ "/" ++ dirname ++ "/" ++ parent_dir_name
    let made := decide (parent_dir_name ∉ env.sessionDirListing)
    if 1 ≤ sess.cycle_count ∨ sess.current_sub_dir_path = none then
      let r := get_sub_directory env.pathExists env.timestamp_hms parent_dir_path
        sess.sub_dir_count
      { session :=
          { cycle_count := 0, sub_dir_count := r.2,
            current_parent_dir := some parent_dir_name,
            current_sub_dir_path := some r.1 },
        wrote := some (r.1 ++ "/" ++ filename ++ ".npy"),
        parent_dir := some parent_dir_path, made_parent := made }
    else
      { session := sess,
        wrote := some (sess.current_sub_dir_path.getD "" ++ "/" ++ filename ++ ".npy"),
        parent_dir := some parent_dir_path, made_parent := made }

/-! ## run_spectrometer.py `write_filename`, `sum_spectrum`, `save_all_data` -/

/-- `write_filename(state, acc_n)`: `ts` models the UTC
`strftime('%Y%m%d_%H%M%S')` prefix and `antenna` the `ANTENNA` constant;
the accumulation suffix is attached only when `SAVE_EACH_ACC` is true. -/
def write_filename (SAVE_EACH_ACC : Bool) (ts antenna : String) (state : Nat)
    (acc_n : String) : String :=
  let basename := ts ++ "_antenna" ++ antenna ++ "_state" ++ toString state
  if SAVE_EACH_ACC then basename ++ "_" ++ acc_n else basename

/-- Length of Python's `zip(*spectrum)`: the least of the row lengths
(0 for an empty argument list). -/
def pyZipLen (spectrum : List (List Nat)) : Nat :=
  match spectrum with
  | [] => 0
  | a :: t => t.foldl (fun m l => min m l.length) a.length

/-- `sum_spectrum(spectrum) = [sum(x) for x in zip(*spectrum)]`: column-wise
sums over the common length of the rows. -/
def sum_spectrum (spectrum : List (List Nat)) : List Nat :=
  (List.range (pyZipLen spectrum)).map fun i =>
    (spectrum.map fun l => l.getD i 0).sum

/-- Python `dict` assignment `spectra[cnt] = s` on an insertion-ordered
association list: overwrite in place when the key exists, else append. -/
def dict_insert (d : List (Nat × List Nat)) (k : Nat) (v : List Nat) :
    List (Nat × List Nat) :=
  if d.any (fun p => p.1 == k) then
    d.map fun p => if p.1 = k then (k, v) else p
  else d ++ [(k, v)]

/-- The averaged-mode collection loop `while len(spectra) < 3`: each round of
`print_acc_cnt` + `get_vacc_data` yields one observation `(cnt, s)` from the
trace `obs`, keyed into the dict by its accumulation id.  `none` when the
trace runs out before three distinct ids were seen. -/
def collect_accs : List (Nat × List Nat) → List (Nat × List Nat) →
    Option (List (Nat × List Nat))
  | [], spectra => if 3 ≤ spectra.length then some spectra else none
  | (cnt, s) :: rest, spectra =>
    if 3 ≤ spectra.length then some spectra
    else collect_accs rest (dict_insert spectra cnt s)

/-- The record `dataDict` of `save_all_data` (its two keys `"switch state"`
and `"spectrum"`). -/
structure Record where
  switch_state : Nat
  spectrum : List Nat
deriving DecidableEq, Repr

/-- `save_all_data(fpga, switch_value)`: in per-accumulation mode one
synchronize-and-read round produces the record, named with its accumulation
id; in averaged mode rounds are collected (deduplicated by id) until three
distinct ids were seen, the spectra are summed element-wise, and the
filename builder is called with the literal `'average'`.  `obs` is the trace
of `(acc id, spectrum)` pairs the rounds would yield; returns the record,
the filename, and the `save_data` outcome (`save_data` is only invoked when
`SAVE_DATA` holds). -/
def save_all_data (SAVE_EACH_ACC SAVE_DATA : Bool) (obs : List (Nat × List Nat))
    (switch_value : Nat) (ts antenna : String) (run_directory : Option String)
    (env : Env) (sess : Session) : Option (Record × String × SaveOutcome) :=
  if SAVE_EACH_ACC then
    match obs with
    | [] => none
    | (cnt, s) :: _ =>
      let recd : Record := { switch_state := switch_value, spectrum := s }
      let filename := write_filename true ts antenna switch_value (toString cnt)
      let out :=
        if SAVE_DATA then save_data SAVE_DATA run_directory env sess filename
        else { session := sess, wrote := none, parent_dir := none, made_parent := false }
      some (recd, filename, out)
  else
    match collect_accs obs [] with
    | none => none
    | some spectra =>
      let spectra_list := spectra.map Prod.snd
      let recd : Record :=
        { switch_state := switch_value, spectrum := sum_spectrum spectra_list }
      let filename := write_filename false ts antenna switch_value "average"
      let out :=
        if SAVE_DATA then save_data SAVE_DATA run_directory env sess filename
        else { session := sess, wrote := none, parent_dir := none, made_parent := false }
      some (recd, filename, out)

/-! ## Theorems -/

/-- C9: for every state `n ∈ {0..7}`, `gpio_switch` computes `idx = 7 - n`
and drives line A from bit 0, line B from bit 1 and line C from bit 2 of
`idx`; the state-to-lines map is injective, with state 0 ↦ idx 7 ↦ lines
(on, on, on) and state 7 ↦ idx 0 ↦ lines (off, off, off). -/
theorem gpio_switch_state_encoding :
    (∀ (s : Fin 8) (t : Int) (pins : GpioPins),
        gpio_switch (s : Int) t pins =
          { pins := { pin0 := decide (Int.land (7 - (s : Int)) 1 ≠ 0)
                      pin1 := decide (Int.land (7 - (s : Int)) 2 ≠ 0)
                      pin2 := decide (Int.land (7 - (s : Int)) 4 ≠ 0) }
            slept := some t, ret := none }) ∧
    Function.Injective gpio_lines ∧
    gpio_lines 0 = { pin0 := true, pin1 := true, pin2 := true } ∧
    gpio_lines 7 = { pin0 := false, pin1 := false, pin2 := false } := by
  refine ⟨?_, by decide, by decide, by decide⟩
  intro s t pins
  have h8 : s.val < 8 := s.isLt
  simp only [gpio_switch]
  rw [if_neg (by omega)]

/-- Witness for `gpio_switch_state_encoding` at state 0. -/
theorem gpio_switch_state_encoding_witness :
    gpio_switch ((0 : Fin 8) : Int) 2 ⟨false, false, false⟩ =
      { pins := { pin0 := decide (Int.land (7 - ((0 : Fin 8) : Int)) 1 ≠ 0)
                  pin1 := decide (Int.land (7 - ((0 : Fin 8) : Int)) 2 ≠ 0)
                  pin2 := decide (Int.land (7 - ((0 : Fin 8) : Int)) 4 ≠ 0) }
        slept := some 2, ret := none } :=
  gpio_switch_state_encoding.1 0 2 ⟨false, false, false⟩

/-- C10: every out-of-range state other than 10 makes `gpio_switch` return
the error string, leaving the lines untouched and skipping the sleep; the
out-of-spec state 10 is accepted and, via `idx = 7 - 10 = -3` under Python's
two's-complement bit tests, turns line A on, line B off and line C on. -/
theorem gpio_switch_invalid_and_ten :
    (∀ (n : Int) (t : Int) (pins : GpioPins), (n < 0 ∨ 7 < n) → n ≠ 10 →
        gpio_switch n t pins =
          { pins := pins, slept := none,
            ret := some "Invalid calibration index. Please choose a number between 0 and 7, or 10." }) ∧
    (∀ (t : Int) (pins : GpioPins),
        gpio_switch 10 t pins =
          { pins := { pin0 := true, pin1 := false, pin2 := true },
            slept := some t, ret := none }) := by
  constructor
  · intro n t pins h1 h2
    simp only [gpio_switch]
    rw [if_pos ⟨h1, h2⟩]
  · intro t pins
    simp only [gpio_switch]
    rw [if_neg (by omega)]
    have h3 : (7 : Int) - 10 = Int.negSucc 2 := by decide
    rw [h3]
    simp [Int.land, Nat.ldiff, Nat.bitwise]

/-- Witness for `gpio_switch_invalid_and_ten` at `n = -1`. -/
theorem gpio_switch_invalid_and_ten_witness :
    ((-1 : Int) < 0 ∨ 7 < (-1 : Int)) ∧ (-1 : Int) ≠ 10 ∧
    gpio_switch (-1) 5 ⟨true, false, true⟩ =
      { pins := ⟨true, false, true⟩, slept := none,
        ret := some "Invalid calibration index. Please choose a number between 0 and 7, or 10." } :=
  ⟨by decide, by decide,
    gpio_switch_invalid_and_ten.1 (-1) 5 ⟨true, false, true⟩ (by decide) (by decide)⟩

/-- The polling loop returns at once when the current read already differs
from the baseline. -/
theorem acc_cnt_loop_exit (last acc c : Nat) (rs : List Nat) (h : acc ≠ last) :
    acc_cnt_loop last acc c rs = some (acc, c) := by
  cases rs <;> simp [acc_cnt_loop, h]

/-- If the remaining reads never decrease and start no lower than the
baseline, the loop (entered with the current read equal to the baseline)
exits with a value strictly above the baseline; the returned count minus the
entry count locates that value in the read trace. -/
theorem acc_cnt_loop_spec (last : Nat) :
    ∀ (reads : List Nat) (c : Nat), List.Chain (· ≤ ·) last reads →
      ∀ n k, acc_cnt_loop last last c reads = some (n, k) →
        last < n ∧ c < k ∧ reads[k - c - 1]? = some n := by
  intro reads
  induction reads with
  | nil =>
    intro c _ n k h
    simp [acc_cnt_loop] at h
  | cons r rest ih =>
    intro c hch n k h
    rw [List.chain_cons] at hch
    obtain ⟨hlr, hchain⟩ := hch
    simp only [acc_cnt_loop, if_pos rfl] at h
    by_cases hr : r = last
    · subst hr
      obtain ⟨h1, h2, h3⟩ := ih (c + 1) hchain n k h
      refine ⟨h1, by omega, ?_⟩
      rw [show k - c - 1 = (k - (c + 1) - 1) + 1 by omega]
      simpa using h3
    · rw [acc_cnt_loop_exit last r (c + 1) rest hr] at h
      obtain ⟨rfl, rfl⟩ : r = n ∧ c + 1 = k := by simpa using h
      exact ⟨lt_of_le_of_ne hlr (fun e => hr e.symm), by omega, by simp⟩

/-- C2 (amended): for a non-decreasing read trace whose first read is at
least `lastSeen`, whenever `get_acc_cnt` returns it returns the first read
strictly above the baseline (`lastSeen`, replaced by the first read when
that already exceeds it), and the iteration count `k` counts every read
performed including the first (the result is the `k`-th read); on the trace
`[5,5,5,7]` with `lastSeen = 5` it returns `(7, 4)`. -/
theorem get_acc_cnt_monotone_spec :
    (∀ (last_acc_n r0 : Nat) (rest : List Nat) (n k : Nat),
        last_acc_n ≤ r0 → List.Chain (· ≤ ·) r0 rest →
        get_acc_cnt (r0 :: rest) last_acc_n = some (n, k) →
        (if r0 > last_acc_n then r0 else last_acc_n) < n ∧
          1 ≤ k ∧ (r0 :: rest)[k - 1]? = some n) ∧
    get_acc_cnt [5, 5, 5, 7] 5 = some (7, 4) := by
  constructor
  · intro last r0 rest n k hle hch h
    have hbase : (if r0 > last then r0 else last) = r0 := by split <;> omega
    rw [hbase]
    simp only [get_acc_cnt] at h
    rw [hbase] at h
    obtain ⟨h1, h2, h3⟩ := acc_cnt_loop_spec r0 rest 1 hch n k h
    refine ⟨h1, by omega, ?_⟩
    rw [show k - 1 = (k - 1 - 1) + 1 by omega]
    simpa using h3
  · decide

/-- Witness for `get_acc_cnt_monotone_spec` on the trace `[5,5,5,7]`. -/
theorem get_acc_cnt_monotone_spec_witness :
    (if 5 > 5 then 5 else 5 : Nat) < 7 ∧ 1 ≤ 4 ∧
      ([5, 5, 5, 7] : List Nat)[4 - 1]? = some 7 :=
  get_acc_cnt_monotone_spec.1 5 5 [5, 5, 7] 7 4 (by decide)
    (by norm_num [List.chain_cons]) (by decide)

/-- C2 (counterexample to the claim as stated): on the read trace `[3]` with
`lastSeen = 5` the code returns `(3, 1)` — the first read is below the
baseline, the `while acc_n == last_acc_n` loop is skipped, and the returned
count 3 is not strictly greater than the baseline 5. -/
theorem get_acc_cnt_claim_cex :
    get_acc_cnt [3] 5 = some (3, 1) ∧
      ¬ (if 3 > 5 then 3 else 5 : Nat) < 3 := by
  exact ⟨by decide, by decide⟩

/-- Flattening `m` rows of `n` entries row-major is indexing by `k / n` and
`k % n`. -/
theorem range_flatMap_map (g : Nat → Nat → Nat) (n m : Nat) :
    (List.range m).flatMap (fun i => (List.range n).map (g i)) =
      (List.range (m * n)).map fun k => g (k / n) (k % n) := by
  rcases Nat.eq_zero_or_pos n with hn | hn
  · subst hn
    simp
  · induction m with
    | zero => simp
    | succ m ih =>
      rw [List.range_succ, List.flatMap_append, ih,
        show (m + 1) * n = m * n + n by ring, List.range_add, List.map_append,
        List.map_map]
      congr 1
      simp only [List.flatMap_cons, List.flatMap_nil, List.append_nil]
      apply List.map_congr_left
      intro x hx
      rw [List.mem_range] at hx
      have hd : (m * n + x) / n = m := by
        rw [Nat.add_comm, Nat.mul_comm, Nat.add_mul_div_left x m hn,
          Nat.div_eq_of_lt hx, Nat.zero_add]
      have hm2 : (m * n + x) % n = x := by
        rw [Nat.add_comm, Nat.mul_comm, Nat.add_mul_mod_self_left]
        exact Nat.mod_eq_of_lt hx
      simp only [Function.comp_apply, hd, hm2]

/-- C1: every sample of the flat spectrum built by `get_vacc_data` comes
from channel `i % C` at offset `i / C` of the decoded per-channel arrays,
and on the synthetic dataset where channel `c` holds `c*1000 + j` at offset
`j` (here `C = 4` channels of `M = 3` samples, i.e. `NFFT = 24`) the flat
sequence is `[0, 1000, 2000, 3000, 1, 1001, 2001, 3001, ...]`. -/
theorem get_vacc_data_interleaving :
    (∀ (nfft nchannels : Nat) (read : Nat → List Nat) (acc : Nat) (i : Nat),
        i < nfft / 2 / nchannels * nchannels →
        (get_vacc_data nfft nchannels read acc).1[i]? =
          some ((unpackBE64 (read (i % nchannels))).getD (i / nchannels) 0)) ∧
    (get_vacc_data 24 4
        (fun c => ((List.range 3).map fun j => c * 1000 + j).flatMap encodeBE64) 0).1 =
      [0, 1000, 2000, 3000, 1, 1001, 2001, 3001, 2, 1002, 2002, 3002] := by
  constructor
  · intro nfft nch read acc i hi
    simp only [get_vacc_data]
    rw [range_flatMap_map (fun i j => (unpackBE64 (read j)).getD i 0) nch]
    rw [List.getElem?_map, List.getElem?_range hi]
    rfl
  · decide

/-- Witness for `get_vacc_data_interleaving` at flat index 5 of the
synthetic dataset: channel `5 % 4 = 1`, offset `5 / 4 = 1`. -/
theorem get_vacc_data_interleaving_witness :
    5 < 24 / 2 / 4 * 4 ∧
    (get_vacc_data 24 4
        (fun c => ((List.range 3).map fun j => c * 1000 + j).flatMap encodeBE64) 0).1[5]? =
      some ((unpackBE64
        (((List.range 3).map fun j => (5 % 4) * 1000 + j).flatMap encodeBE64)).getD (5 / 4) 0) :=
  ⟨by decide,
    get_vacc_data_interleaving.1 24 4
      (fun c => ((List.range 3).map fun j => c * 1000 + j).flatMap encodeBE64) 0 5
      (by decide)⟩

/-- Method 1 exhausts exactly when no candidate hostname both resolves and
passes the connect probe. -/
theorem method1_eq_none_iff (net : Net) :
    ∀ l : List String, method1 net l = none ↔
      ∀ h ∈ l, ∀ ip, net.resolve h = some ip → net.connect ip = false := by
  intro l
  induction l with
  | nil => simp [method1]
  | cons a t ih =>
    simp only [method1]
    cases hres : net.resolve a with
    | none =>
      rw [ih]
      constructor
      · intro h1 h hm ip hr
        rcases List.mem_cons.mp hm with rfl | hm2
        · rw [hres] at hr
          cases hr
        · exact h1 h hm2 ip hr
      · intro h2 h hm ip hr
        exact h2 h (List.mem_cons_of_mem a hm) ip hr
    | some ip =>
      dsimp only
      by_cases hc : net.connect ip = true
      · rw [if_pos hc]
        constructor
        · intro h
          cases h
        · intro h2
          have := h2 a (List.mem_cons_self a t) ip hres
          rw [hc] at this
          cases this
      · have hc2 : net.connect ip = false := by simpa using hc
        rw [if_neg hc, ih]
        constructor
        · intro h1 h hm ip2 hr
          rcases List.mem_cons.mp hm with rfl | hm2
          · rw [hres] at hr
            obtain rfl : ip = ip2 := by simpa using hr
            exact hc2
          · exact h1 h hm2 ip2 hr
        · intro h2 h hm ip2 hr
          exact h2 h (List.mem_cons_of_mem a hm) ip2 hr

/-- The scoped-connect loop over one interface's neighbor addresses
exhausts exactly when every address refuses. -/
theorem try_addrs_eq_none_iff (net : Net) (iface : String) :
    ∀ l : List String, try_addrs net iface l = none ↔
      ∀ a ∈ l, net.connect6 a iface = false := by
  intro l
  induction l with
  | nil => simp [try_addrs]
  | cons a t ih =>
    simp only [try_addrs]
    by_cases hc : net.connect6 a iface = true
    · rw [if_pos hc]
      constructor
      · intro h
        cases h
      · intro h2
        have := h2 a (List.mem_cons_self a t)
        rw [hc] at this
        cases this
    · have hc2 : net.connect6 a iface = false := by simpa using hc
      rw [if_neg hc, ih]
      constructor
      · intro h1 b hm
        rcases List.mem_cons.mp hm with rfl | hm2
        · exact hc2
        · exact h1 b hm2
      · intro h2 b hm
        exact h2 b (List.mem_cons_of_mem a hm)

/-- Method 3 exhausts exactly when every neighbor address on every surviving
interface refuses the scoped connect. -/
theorem method3_eq_none_iff (net : Net) :
    ∀ l : List String, method3 net l = none ↔
      ∀ i ∈ l, ∀ a ∈ net.neighbors i, net.connect6 a i = false := by
  intro l
  induction l with
  | nil => simp [method3]
  | cons i t ih =>
    simp only [method3]
    cases hta : try_addrs net i (net.neighbors i) with
    | some ip =>
      constructor
      · intro h
        cases h
      · intro h2
        have h3 := (try_addrs_eq_none_iff net i (net.neighbors i)).mpr
          (fun a hm => h2 i (List.mem_cons_self i t) a hm)
        rw [hta] at h3
        cases h3
    | none =>
      rw [ih]
      constructor
      · intro h1 j hm a ha
        rcases List.mem_cons.mp hm with rfl | hm2
        · exact (try_addrs_eq_none_iff net j (net.neighbors j)).mp hta a ha
        · exact h1 j hm2 a ha
      · intro h2 j hm a ha
        exact h2 j (List.mem_cons_of_mem i hm) a ha

/-- First-occurrence deduplication produces a duplicate-free list avoiding
everything already seen. -/
theorem dedupFirst_nodup :
    ∀ (l seen : List String),
      (dedupFirst seen l).Nodup ∧ ∀ a ∈ dedupFirst seen l, a ∉ seen := by
  intro l
  induction l with
  | nil => intro seen; simp [dedupFirst]
  | cons a t ih =>
    intro seen
    simp only [dedupFirst]
    by_cases ha : a ∈ seen
    · rw [if_pos ha]
      exact ih seen
    · rw [if_neg ha]
      obtain ⟨h1, h2⟩ := ih (a :: seen)
      refine ⟨List.nodup_cons.mpr ⟨fun hmem => ?_, h1⟩, ?_⟩
      · exact h2 a hmem (List.mem_cons_self a seen)
      · intro b hb
        rcases List.mem_cons.mp hb with rfl | hb2
        · exact ha
        · intro hbseen
          exact h2 b hb2 (List.mem_cons_of_mem a hbseen)

/-- C8: `discover_fpga_address` never short-circuits on a partial success —
if every hostname candidate fails its connect probe (even after resolving),
a responsive hardcoded address is still found and returned; `none` is
returned exactly when all three methods are exhausted; and the hostname
candidate list is deduplicated (order-preserving, so duplicate-free). -/
theorem discover_fallback_chain :
    (∀ (net : Net) (hard hint : String),
        (∀ h ∈ hostnames_to_try hint, ∀ ip, net.resolve h = some ip →
          net.connect ip = false) →
        net.connect hard = true →
        discover_fpga_address net hard hint = some hard) ∧
    (∀ (net : Net) (hard hint : String),
        discover_fpga_address net hard hint = none ↔
          ((∀ h ∈ hostnames_to_try hint, ∀ ip, net.resolve h = some ip →
              net.connect ip = false) ∧
            net.connect hard = false ∧
            ∀ i ∈ iface_filter net.link_ifaces, ∀ a ∈ net.neighbors i,
              net.connect6 a i = false)) ∧
    ∀ hint, (hostnames_to_try hint).Nodup := by
  refine ⟨?_, ?_, ?_⟩
  · intro net hard hint hhost hconn
    have h1 : method1 net (hostnames_to_try hint) = none :=
      (method1_eq_none_iff net (hostnames_to_try hint)).mpr hhost
    simp only [discover_fpga_address, h1]
    rw [if_pos hconn]
  · intro net hard hint
    simp only [discover_fpga_address]
    cases h1 : method1 net (hostnames_to_try hint) with
    | some ip =>
      constructor
      · intro h
        cases h
      · rintro ⟨hh, -, -⟩
        have := (method1_eq_none_iff net (hostnames_to_try hint)).mpr hh
        rw [h1] at this
        cases this
    | none =>
      by_cases hc : net.connect hard = true
      · rw [if_pos hc]
        constructor
        · intro h
          cases h
        · rintro ⟨-, hfalse, -⟩
          rw [hc] at hfalse
          cases hfalse
      · have hc2 : net.connect hard = false := by simpa using hc
        rw [if_neg hc, method3_eq_none_iff]
        constructor
        · intro h3
          exact ⟨(method1_eq_none_iff net (hostnames_to_try hint)).mp h1, hc2, h3⟩
        · rintro ⟨-, -, h3⟩
          exact h3
  · intro hint
    exact (dedupFirst_nodup _ []).1

/-- Witness for `discover_fallback_chain`: the hint hostname resolves but
its probe fails, the other candidates do not resolve, and the hardcoded
address `169.254.2.181` answers — discovery still reaches and returns it. -/
theorem discover_fallback_chain_witness :
    discover_fpga_address
      { resolve := fun h => if h = "rfsoc" then some "10.0.0.2" else none,
        connect := fun ip => ip == "169.254.2.181",
        link_ifaces := [], neighbors := fun _ => [], connect6 := fun _ _ => false }
      "169.254.2.181" "rfsoc" = some "169.254.2.181" := by
  apply discover_fallback_chain.1
  · intro h hm ip hr
    have hl : hostnames_to_try "rfsoc" = ["rfsoc", "localhost.localdomain", "localhost"] := by
      decide
    rw [hl] at hm
    fin_cases hm
    · obtain rfl : "10.0.0.2" = ip := by simpa using hr
      decide
    · simp at hr
    · simp at hr
  · decide

/-- The defaulted last element of a nonempty list is one of its elements. -/
theorem getLastD_mem_cons : ∀ (t : List String) (b d : String),
    (b :: t).getLastD d ∈ b :: t := by
  intro t
  induction t with
  | nil =>
    intro b d
    simp
  | cons c t2 ih =>
    intro b d
    rw [List.getLastD_cons]
    exact List.mem_cons_of_mem b (ih c b)

/-- In a `≤`-sorted list every element is at most the last one. -/
theorem sorted_le_getLastD :
    ∀ l : List String, l.Sorted (· ≤ ·) → ∀ d ∈ l, d ≤ l.getLastD "" := by
  intro l
  induction l with
  | nil =>
    intro _ d hd
    cases hd
  | cons a t ih =>
    intro hs d hd
    rw [List.sorted_cons] at hs
    obtain ⟨hall, hst⟩ := hs
    cases t with
    | nil =>
      rcases List.mem_cons.mp hd with rfl | h
      · simp
      · cases h
    | cons b t2 =>
      have hlast : (a :: b :: t2).getLastD "" = (b :: t2).getLastD "" := by
        rw [List.getLastD_cons, List.getLastD_cons, List.getLastD_cons]
      rw [hlast]
      rcases List.mem_cons.mp hd with rfl | h
      · exact hall _ (getLastD_mem_cons t2 b "")
      · exact ih hst d h

/-- C7: with saving enabled, the parent directory `save_data` resolves or
creates is `<BASE_PATH>/<last drive dir>/<name>`, where the drive-session
directory is the last entry of the `BASE_PATH` listing (hence its maximum
whenever the listing is lexicographically sorted) and the name is the
run-directory override when supplied, otherwise the first
underscore-delimited token of the filename. -/
theorem save_data_run_root :
    ∀ (env : Env) (sess : Session) (fn : String) (rd : Option String),
      (save_data true rd env sess fn).parent_dir =
        some (BASE_PATH ++ "/" ++ env.driveDirs.getLastD "" ++ "/" ++
          (match rd with | some r => r | none => (fn.splitOn "_").headD "")) ∧
      (env.driveDirs.Sorted (· ≤ ·) →
        ∀ d ∈ env.driveDirs, d ≤ env.driveDirs.getLastD "") := by
  intro env sess fn rd
  constructor
  · simp only [save_data]
    rw [if_neg (by simp)]
    split <;> rfl
  · intro hs d hd
    exact sorted_le_getLastD env.driveDirs hs d hd

/-- Witness for `save_data_run_root` on the listing `["A", "B"]` with the
override `par`. -/
theorem save_data_run_root_witness :
    (save_data true (some "par")
        ⟨["A", "B"], [], fun _ => false, "101010"⟩
        ⟨0, 0, none, none⟩ "f").parent_dir = some "/media/peterson/B/par" ∧
    ∀ d ∈ (["A", "B"] : List String), d ≤ (["A", "B"] : List String).getLastD "" := by
  have h := save_data_run_root ⟨["A", "B"], [], fun _ => false, "101010"⟩
    ⟨0, 0, none, none⟩ "f" (some "par")
  constructor
  · rw [h.1]
    decide
  · refine h.2 ?_
    simp only [List.sorted_cons]
    refine ⟨?_, by simp⟩
    intro b hb
    simp only [List.mem_cons, List.not_mem_nil, or_false] at hb
    subst hb
    rw [String.le_iff_toList_le]
    decide

/-- C3 (amended): when saving is disabled `save_data` returns before any
bookkeeping — the session is left exactly as it was and nothing is written
(rather than advancing identically to the enabled call); the enabled and
disabled calls agree on the session only when no cycle boundary is pending
and a subdirectory already exists, in which case the enabled call leaves the
session unchanged too. -/
theorem save_data_disabled_noop :
    ∀ (rd : Option String) (env : Env) (sess : Session) (fn : String),
      (save_data false rd env sess fn).session = sess ∧
      (save_data false rd env sess fn).wrote = none ∧
      (¬ (1 ≤ sess.cycle_count ∨ sess.current_sub_dir_path = none) →
        (save_data true rd env sess fn).session = sess) := by
  intro rd env sess fn
  refine ⟨rfl, rfl, ?_⟩
  intro h
  simp only [save_data]
  rw [if_neg (by simp), if_neg h]

/-- Witness for `save_data_disabled_noop`: mid-cycle session with an open
subdirectory. -/
theorem save_data_disabled_noop_witness :
    (save_data false (some "par") ⟨["D"], [], fun _ => false, "090000"⟩
        ⟨0, 2, some "par", some "/x"⟩ "f").session = ⟨0, 2, some "par", some "/x"⟩ ∧
    (save_data false (some "par") ⟨["D"], [], fun _ => false, "090000"⟩
        ⟨0, 2, some "par", some "/x"⟩ "f").wrote = none ∧
    (save_data true (some "par") ⟨["D"], [], fun _ => false, "090000"⟩
        ⟨0, 2, some "par", some "/x"⟩ "f").session = ⟨0, 2, some "par", some "/x"⟩ := by
  have h := save_data_disabled_noop (some "par") ⟨["D"], [], fun _ => false, "090000"⟩
    ⟨0, 2, some "par", some "/x"⟩ "f"
  exact ⟨h.1, h.2.1, h.2.2 (by decide)⟩

/-- C3 (counterexample to the claim as stated): with a cycle boundary
pending (`cycle_count = 1`), the disabled call leaves the session untouched
while the enabled call resets the cycle counter and opens a subdirectory —
the bookkeeping states differ. -/
theorem save_data_disabled_state_cex :
    (save_data false (some "par")
        ⟨["DRIVE"], ["par"], fun _ => false, "120000"⟩
        ⟨1, 0, none, none⟩ "f").session ≠
      (save_data true (some "par")
        ⟨["DRIVE"], ["par"], fun _ => false, "120000"⟩
        ⟨1, 0, none, none⟩ "f").session := by
  decide

/-- C4 (amended): with saving enabled, `save_data` reuses the current
subdirectory exactly when no cycle boundary is pending and one exists, and
otherwise switches to the timestamp-named candidate under the parent
directory, resetting the cycle counter; provided that candidate path does
not already exist on disk it is freshly created (the subdirectory counter
increments) and is distinct from any current subdirectory that does exist —
so two consecutive saves without a boundary share a subdirectory, and the
first save after a boundary opens a new, distinct one unless its `HHMMSS`
name collides with an existing directory. -/
theorem save_data_subdir_policy :
    ∀ (env : Env) (sess : Session) (fn : String) (rd : Option String)
      (parentPath cand : String),
      parentPath = BASE_PATH ++ "/" ++ env.driveDirs.getLastD "" ++ "/" ++
        (match rd with | some r => r | none => (fn.splitOn "_").headD "") →
      cand = parentPath ++ "/" ++ env.timestamp_hms →
      ((∀ p, ¬ 1 ≤ sess.cycle_count → sess.current_sub_dir_path = some p →
          (save_data true rd env sess fn).session = sess ∧
          (save_data true rd env sess fn).wrote = some (p ++ "/" ++ fn ++ ".npy")) ∧
        ((1 ≤ sess.cycle_count ∨ sess.current_sub_dir_path = none) →
          (save_data true rd env sess fn).session.current_sub_dir_path = some cand ∧
          (save_data true rd env sess fn).session.cycle_count = 0 ∧
          (env.pathExists cand = false →
            (save_data true rd env sess fn).session.sub_dir_count = sess.sub_dir_count + 1 ∧
            ∀ p, sess.current_sub_dir_path = some p → env.pathExists p = true →
              cand ≠ p))) := by
  intro env sess fn rd parentPath cand hpp hcand
  subst hpp
  subst hcand
  constructor
  · intro p h1 h2
    have hcond : ¬ (1 ≤ sess.cycle_count ∨ sess.current_sub_dir_path = none) := by
      rintro (h | hn)
      · exact h1 h
      · rw [h2] at hn
        cases hn
    simp only [save_data]
    rw [if_neg (by simp), if_neg hcond]
    exact ⟨rfl, by simp [h2]⟩
  · intro hcycle
    simp only [save_data]
    rw [if_neg (by simp), if_pos hcycle]
    simp only [get_sub_directory]
    by_cases hex : env.pathExists (BASE_PATH ++ "/" ++ env.driveDirs.getLastD "" ++ "/" ++
        (match rd with | some r => r | none => (fn.splitOn "_").headD "") ++ "/" ++
        env.timestamp_hms) = true
    · rw [if_pos hex]
      refine ⟨rfl, trivial, ?_⟩
      intro hfalse
      rw [hex] at hfalse
      cases hfalse
    · rw [if_neg hex]
      refine ⟨rfl, trivial, fun _ => ⟨rfl, ?_⟩⟩
      intro p hp hpe he
      rw [he, hpe] at hex
      exact hex rfl

/-- Witness for `save_data_subdir_policy` with a pending cycle boundary and
a fresh timestamp. -/
theorem save_data_subdir_policy_witness :
    (save_data true (some "par")
        ⟨["DRIVE"], ["par"], (fun s => s == "/media/peterson/DRIVE/par/120000"), "101010"⟩
        ⟨1, 3, some "par", some "/media/peterson/DRIVE/par/120000"⟩
        "f").session.current_sub_dir_path = some "/media/peterson/DRIVE/par/101010" ∧
    (save_data true (some "par")
        ⟨["DRIVE"], ["par"], (fun s => s == "/media/peterson/DRIVE/par/120000"), "101010"⟩
        ⟨1, 3, some "par", some "/media/peterson/DRIVE/par/120000"⟩
        "f").session.sub_dir_count = 3 + 1 := by
  have h := (save_data_subdir_policy
    ⟨["DRIVE"], ["par"], (fun s => s == "/media/peterson/DRIVE/par/120000"), "101010"⟩
    ⟨1, 3, some "par", some "/media/peterson/DRIVE/par/120000"⟩
    "f" (some "par") "/media/peterson/DRIVE/par" "/media/peterson/DRIVE/par/101010"
    (by decide) (by decide)).2 (Or.inl (by decide))
  exact ⟨h.1, (h.2.2 (by decide)).1⟩

/-- C4 (counterexample to the claim as stated): the subdirectory is named
only by the `HHMMSS` timestamp, so a boundary save whose timestamp names the
already-existing current subdirectory reuses it — same path, counter not
bumped — instead of writing into a new, distinct subdirectory. -/
theorem save_data_same_timestamp_cex :
    (save_data true (some "par")
        ⟨["DRIVE"], ["par"], (fun s => s == "/media/peterson/DRIVE/par/120000"), "120000"⟩
        ⟨1, 3, some "par", some "/media/peterson/DRIVE/par/120000"⟩ "f").session =
      ⟨0, 3, some "par", some "/media/peterson/DRIVE/par/120000"⟩ := by
  decide

/-- Python-dict insertion never duplicates keys. -/
theorem dict_insert_fst_nodup (d : List (Nat × List Nat)) (k : Nat) (v : List Nat)
    (hnd : (d.map Prod.fst).Nodup) : ((dict_insert d k v).map Prod.fst).Nodup := by
  unfold dict_insert
  split
  · rw [List.map_map]
    have hmap : d.map (fun p => ((if p.1 = k then (k, v) else p) : Nat × List Nat).1) =
        d.map Prod.fst := by
      apply List.map_congr_left
      intro p _
      by_cases hp : p.1 = k
      · simp [hp]
      · simp [hp]
    rw [show (Prod.fst ∘ fun p => if p.1 = k then ((k, v) : Nat × List Nat) else p) =
        fun p => ((if p.1 = k then ((k, v) : Nat × List Nat) else p)).1 from rfl]
    rw [hmap]
    exact hnd
  · rename_i hany
    rw [List.map_append, List.nodup_append]
    refine ⟨hnd, by simp, ?_⟩
    intro x hx hx2
    simp only [List.map_cons, List.map_nil, List.mem_cons, List.not_mem_nil, or_false] at hx2
    subst hx2
    rcases List.mem_map.mp hx with ⟨p, hp, hpk⟩
    exact hany (List.any_eq_true.mpr ⟨p, hp, by simp [hpk]⟩)

/-- Python-dict insertion grows the dict by at most one entry. -/
theorem dict_insert_length_le (d : List (Nat × List Nat)) (k : Nat) (v : List Nat) :
    (dict_insert d k v).length ≤ d.length + 1 := by
  unfold dict_insert
  split
  · simp
  · simp

/-- Loop invariant of the averaged-mode collection: starting from a
duplicate-free dict of at most three entries, a successful return holds
exactly three entries with pairwise-distinct accumulation ids. -/
theorem collect_accs_spec :
    ∀ (obs d : List (Nat × List Nat)),
      (d.map Prod.fst).Nodup → d.length ≤ 3 →
      ∀ out, collect_accs obs d = some out →
        out.length = 3 ∧ (out.map Prod.fst).Nodup := by
  intro obs
  induction obs with
  | nil =>
    intro d hnd hlen out h
    simp only [collect_accs] at h
    split at h
    · rename_i h3
      obtain rfl : d = out := by simpa using h
      exact ⟨by omega, hnd⟩
    · cases h
  | cons o rest ih =>
    obtain ⟨cnt, s⟩ := o
    intro d hnd hlen out h
    simp only [collect_accs] at h
    split at h
    · rename_i h3
      obtain rfl : d = out := by simpa using h
      exact ⟨by omega, hnd⟩
    · rename_i h3
      exact ih (dict_insert d cnt s) (dict_insert_fst_nodup d cnt s hnd)
        (le_trans (dict_insert_length_le d cnt s) (by omega)) out h

/-- C5: whenever the averaged mode of `save_all_data` produces a record, the
collection loop gathered exactly three entries keyed by pairwise-distinct
accumulation ids (re-reads under an already-seen id having been absorbed by
the dict), and the record's spectrum is the element-wise sum of exactly
those three spectra. -/
theorem save_all_data_averaged_distinct :
    ∀ (SAVE_DATA : Bool) (obs : List (Nat × List Nat)) (sv : Nat) (ts ant : String)
      (rd : Option String) (env : Env) (sess : Session)
      (recd : Record) (fn : String) (out : SaveOutcome),
      save_all_data false SAVE_DATA obs sv ts ant rd env sess = some (recd, fn, out) →
      ∃ spectra, collect_accs obs [] = some spectra ∧
        spectra.length = 3 ∧ (spectra.map Prod.fst).Nodup ∧
        recd.spectrum = sum_spectrum (spectra.map Prod.snd) := by
  intro SD obs sv ts ant rd env sess recd fn out h
  simp only [save_all_data] at h
  rw [if_neg (by simp)] at h
  cases hc : collect_accs obs [] with
  | none =>
    rw [hc] at h
    cases h
  | some spectra =>
    rw [hc] at h
    cases h
    obtain ⟨hlen, hnd⟩ := collect_accs_spec obs [] (by simp) (by simp) spectra hc
    exact ⟨spectra, rfl, hlen, hnd, rfl⟩

/-- Witness for `save_all_data_averaged_distinct`: the trace repeats id 1
(its spectrum is overwritten, not double-counted), then ids 2 and 3
complete the three distinct accumulations; the sum is `[3+5+7, 4+6+8]`. -/
theorem save_all_data_averaged_distinct_witness :
    ∃ spectra, collect_accs [(1, [1, 2]), (1, [3, 4]), (2, [5, 6]), (3, [7, 8])] [] =
        some spectra ∧
      spectra.length = 3 ∧ (spectra.map Prod.fst).Nodup ∧
      (Record.mk 0 [15, 18]).spectrum = sum_spectrum (spectra.map Prod.snd) :=
  save_all_data_averaged_distinct false [(1, [1, 2]), (1, [3, 4]), (2, [5, 6]), (3, [7, 8])]
    0 "T" "1" none ⟨[], [], fun _ => false, ""⟩ ⟨0, 0, none, none⟩
    ⟨0, [15, 18]⟩ "T_antenna1_state0"
    ⟨⟨0, 0, none, none⟩, none, none, false⟩ (by decide)

/-- C6 (amended): the filename ends in the per-accumulation id exactly when
the per-accumulation save mode is active; in averaged mode the literal
`'average'` is passed to the filename builder but dropped, so the saved
record's filename is the bare `<timestamp>_antenna<id>_state<state>` with no
trailing marker. -/
theorem save_all_data_filename_suffix :
    (∀ (SD : Bool) (cnt : Nat) (s : List Nat) (rest : List (Nat × List Nat))
        (sv : Nat) (ts ant : String) (rd : Option String) (env : Env) (sess : Session)
        (recd : Record) (fn : String) (out : SaveOutcome),
        save_all_data true SD ((cnt, s) :: rest) sv ts ant rd env sess =
          some (recd, fn, out) →
        fn = ts ++ "_antenna" ++ ant ++ "_state" ++ toString sv ++ "_" ++ toString cnt) ∧
    (∀ (SD : Bool) (obs : List (Nat × List Nat)) (sv : Nat) (ts ant : String)
        (rd : Option String) (env : Env) (sess : Session)
        (recd : Record) (fn : String) (out : SaveOutcome),
        save_all_data false SD obs sv ts ant rd env sess = some (recd, fn, out) →
        fn = ts ++ "_antenna" ++ ant ++ "_state" ++ toString sv) := by
  constructor
  · intro SD cnt s rest sv ts ant rd env sess recd fn out h
    simp only [save_all_data] at h
    rw [if_pos trivial] at h
    cases h
    rfl
  · intro SD obs sv ts ant rd env sess recd fn out h
    simp only [save_all_data] at h
    rw [if_neg (by simp)] at h
    cases hc : collect_accs obs [] with
    | none =>
      rw [hc] at h
      cases h
    | some spectra =>
      rw [hc] at h
      cases h
      rfl

/-- Witness for `save_all_data_filename_suffix`: a per-accumulation save of
accumulation id 7 in state 2. -/
theorem save_all_data_filename_suffix_witness :
    "T_antenna4_state2_7" =
      "T" ++ "_antenna" ++ "4" ++ "_state" ++ toString (2 : Nat) ++ "_" ++ toString (7 : Nat) :=
  save_all_data_filename_suffix.1 false 7 [9] [] 2 "T" "4" none
    ⟨[], [], fun _ => false, ""⟩ ⟨0, 0, none, none⟩
    ⟨2, [9]⟩ "T_antenna4_state2_7" ⟨⟨0, 0, none, none⟩, none, none, false⟩ (by decide)

/-- C6 (counterexample to the claim as stated): an averaged-mode save
produces the bare basename — the filename carries no `'average'` marker,
because `write_filename` only appends its accumulation argument when
`SAVE_EACH_ACC` is set. -/
theorem save_all_data_average_marker_cex :
    save_all_data false false [(1, [1]), (2, [2]), (3, [3])] 0 "T" "1" none
        ⟨[], [], fun _ => false, ""⟩ ⟨0, 0, none, none⟩ =
      some (⟨0, [6]⟩, "T_antenna1_state0", ⟨⟨0, 0, none, none⟩, none, none, false⟩) ∧
    write_filename false "T" "1" 0 "average" = "T_antenna1_state0" ∧
    "T_antenna1_state0" ≠ "T_antenna1_state0" ++ "_average" := by
  exact ⟨by decide, by decide, by decide⟩

end HighZ
